import Mathlib

/-!
Verification development for the recurring-transaction reconciliation and
aggregation engine of a personal finance tracker (React/TypeScript sources:
`src/components/Dashboard.tsx`, `src/components/TransactionList.tsx`,
`src/services/storage.ts`, `src/types.ts`).

Shallow embedding conventions:
* JavaScript strings are `String`; the string operations the code uses
  (`split`, `startsWith`, template interpolation, `padStart`) are modelled
  on `List Char` by structural recursion so that concrete instances reduce
  in the kernel.
* JavaScript numbers holding monetary amounts are modelled as exact
  rationals `ℚ`; the years/months/days the code manipulates are `Nat`.
  `Number(s)` applied to a digit string is modelled by `jsNumber`, with
  `none` standing for `NaN`.
* `new Date(s + "T00:00:00")` followed by `getFullYear`/`getMonth`/
  comparisons is modelled by `jsDateParse`, which accepts exactly the
  canonical `YYYY-MM-DD` dates whose day is in range for the month
  (the ECMAScript Date-Time-String format with range validation; an
  out-of-range or ill-formed date yields `none`, i.e. an Invalid Date all
  of whose numeric comparisons are false).
* Calendar dates are compared through `dayNumber`, an exact day count, so
  that `tDate < today` and `setDate(getDate() + 3)` become `<` and `+ 3`
  on day numbers.
* External collaborators (localStorage, JSON.parse, generateId, window
  .confirm) are parameters: stored data is `Option String`, JSON parsing is
  an arbitrary function `String → Option (List Transaction)`, and id
  generation is an arbitrary function `Nat → String` indexed by position.
-/

/-! ## Characters, digit strings and JavaScript string operations -/

/-- The decimal digit character for `n ≤ 9` (an arbitrary placeholder
otherwise, never reached on the inputs we use). -/
def digitChar (n : Nat) : Char :=
  match n with
  | 0 => '0' | 1 => '1' | 2 => '2' | 3 => '3' | 4 => '4'
  | 5 => '5' | 6 => '6' | 7 => '7' | 8 => '8' | 9 => '9'
  | _ => '*'

/-- The numeric value of a decimal digit character, `none` otherwise. -/
def charDigit (c : Char) : Option Nat :=
  if '0' ≤ c ∧ c ≤ '9' then some (c.toNat - 48) else none

/-- JavaScript `s.split(sep)` for a one-character separator, on the
underlying character list: every occurrence of `sep` splits, empty pieces
are kept, and the empty string yields one empty piece. -/
def splitOnSep (sep : Char) : List Char → List (List Char)
  | [] => [[]]
  | c :: cs =>
    if c = sep then [] :: splitOnSep sep cs
    else
      match splitOnSep sep cs with
      | [] => [[c]]
      | g :: gs => (c :: g) :: gs

/-- JavaScript `s.startsWith(p)`. -/
def strStartsWith (s p : String) : Bool :=
  p.data.isPrefixOf s.data

/-- Fuel-driven decimal rendering: accumulates the digits of `n` in front
of `acc`. The fuel is always at least the number of digits on our calls. -/
def natCharsAux : Nat → Nat → List Char → List Char
  | 0, _, acc => acc
  | fuel + 1, n, acc =>
    if n < 10 then digitChar n :: acc
    else natCharsAux fuel (n / 10) (digitChar (n % 10) :: acc)

/-- JavaScript `String(n)` for a natural number `n`. -/
def natChars (n : Nat) : List Char :=
  natCharsAux (n + 1) n []

/-- JavaScript `String(n).padStart(2, "0")`. -/
def padStart2 (n : Nat) : List Char :=
  let s := natChars n
  if s.length < 2 then '0' :: s else s

/-- Digit-string parsing: `parseDigits acc cs` folds the decimal digits of
`cs` onto `acc`, failing on any non-digit character. -/
def parseDigits (acc : Nat) : List Char → Option Nat
  | [] => some acc
  | c :: cs =>
    match charDigit c with
    | some d => parseDigits (acc * 10 + d) cs
    | none => none

/-- JavaScript `Number(s)` restricted to (possibly empty) digit strings;
`none` models `NaN`. (`Number("") = 0` in JavaScript, and indeed
`parseDigits 0 [] = some 0`.) -/
def jsNumber (cs : List Char) : Option Nat :=
  parseDigits 0 cs

/-- The characters of the `YYYY-MM` period string the code builds by
template interpolation: the year unpadded, the month padded to two
digits. -/
def mkPeriodChars (year month : Nat) : List Char :=
  natChars year ++ '-' :: padStart2 month

/-- The `YYYY-MM` period string built from a year and a month. -/
def mkPeriodStr (year month : Nat) : String :=
  String.mk (mkPeriodChars year month)

/-! ## Calendar arithmetic -/

/-- Gregorian leap-year test. -/
def isLeap (y : Nat) : Bool :=
  y % 4 = 0 && (y % 100 != 0 || y % 400 = 0)

/-- Number of days of month `m` (1-based) of year `y`. -/
def daysInMonth (y m : Nat) : Nat :=
  if m = 2 then (if isLeap y then 29 else 28)
  else if m = 4 ∨ m = 6 ∨ m = 9 ∨ m = 11 then 30
  else 31

/-- Days in the months of year `y` strictly before month `m` (1-based). -/
def daysBeforeMonth (y m : Nat) : Nat :=
  let table :=
    match m with
    | 1 => 0 | 2 => 31 | 3 => 59 | 4 => 90 | 5 => 120 | 6 => 151
    | 7 => 181 | 8 => 212 | 9 => 243 | 10 => 273 | 11 => 304 | _ => 334
  if 3 ≤ m ∧ isLeap y then table + 1 else table

/-- An exact day count for the calendar date `y-m-d` (proleptic Gregorian):
the leap days counted by the division terms are those of the years strictly
before `y` (hence `y - 1`), while `daysBeforeMonth` accounts for year `y`'s
own leap day from March on. Consecutive calendar dates map to consecutive
numbers (`dayNumber_nextDate` proves this, including across month and year
boundaries), so two dates compare by `<` on `dayNumber` exactly as the
timestamps of `new Date("YYYY-MM-DDT00:00:00")` do. -/
def dayNumber (y m d : Nat) : Nat :=
  365 * y + (y - 1) / 4 - (y - 1) / 100 + (y - 1) / 400 + daysBeforeMonth y m + d

/-- The calendar date immediately after `y-m-d`: the next day, rolling over
at the end of the month and of the year. -/
def nextDate (y m d : Nat) : Nat × Nat × Nat :=
  if d < daysInMonth y m then (y, m, d + 1)
  else if m < 12 then (y, m + 1, 1)
  else (y + 1, 1, 1)

/-- Validity of a calendar date triple: the precondition under which a
`YYYY-MM-DD` string is a real calendar date. -/
def isValidDate (y m d : Nat) : Prop :=
  1 ≤ m ∧ m ≤ 12 ∧ 1 ≤ d ∧ d ≤ daysInMonth y m

instance (y m d : Nat) : Decidable (isValidDate y m d) := by
  unfold isValidDate; infer_instance

/-- Parsing of a canonical `YYYY-MM-DD` character list with range
validation, as V8 parses the date part of an ISO date-time string: exactly
ten characters, digits in the year/month/day positions, dashes between
them, month in 1..12 and day in range for the month; anything else is an
Invalid Date (`none`). -/
def parseCanonicalDate (cs : List Char) : Option (Nat × Nat × Nat) :=
  match cs with
  | [y1, y2, y3, y4, s1, m1, m2, s2, d1, d2] =>
    if s1 = '-' ∧ s2 = '-' then
      match charDigit y1, charDigit y2, charDigit y3, charDigit y4,
            charDigit m1, charDigit m2, charDigit d1, charDigit d2 with
      | some a, some b, some c, some e, some f, some g, some h, some i =>
        let y := ((a * 10 + b) * 10 + c) * 10 + e
        let m := f * 10 + g
        let d := h * 10 + i
        if 1 ≤ m ∧ m ≤ 12 ∧ 1 ≤ d ∧ d ≤ daysInMonth y m then
          some (y, m, d)
        else none
      | _, _, _, _, _, _, _, _ => none
    else none
  | _ => none

/-- The model of `new Date(s)` for the strings the code builds, namely
`date + "T00:00:00"`: the part before the `T` must be a valid canonical
date and the time part must be exactly `00:00:00`. `none` is an Invalid
Date: every numeric comparison against it is false. -/
def jsDateParse (s : String) : Option (Nat × Nat × Nat) :=
  match splitOnSep 'T' s.data with
  | [datePart, timePart] =>
    if timePart = "00:00:00".data then parseCanonicalDate datePart else none
  | _ => none

/-! ## Data model (`src/types.ts`) -/

/-- The `TransactionType` union type: `'income' | 'expense'`. -/
inductive TransactionType where
  | income
  | expense
deriving DecidableEq

/-- The `Transaction` record of `src/types.ts`. The optional `isFixed`
field is modelled as `Bool`, with `false` for `undefined` (the code only
ever tests its truthiness). -/
structure Transaction where
  id : String
  title : String
  amount : ℚ
  type : TransactionType
  category : String
  date : String
  isPaid : Bool
  isFixed : Bool
deriving DecidableEq

/-- The `SummaryStats` record of `src/types.ts`. -/
structure SummaryStats where
  totalIncome : ℚ
  totalExpense : ℚ
  balance : ℚ
  forecastBalance : ℚ
  incomeReceived : ℚ
  expensePaid : ℚ
deriving DecidableEq

/-! ## Storage (`src/services/storage.ts`) -/

/-- The model of `getTransactions`: `stored` is what
`localStorage.getItem(STORAGE_KEY)` returns (`none` for `null`), and
`parseJson` abstracts `JSON.parse` followed by the implicit cast to
`Transaction[]`, with `none` for a thrown parse error. The ternary
`data ? JSON.parse(data) : []` treats the empty string as falsy, and the
`catch` turns a parse failure into the empty list. -/
def getTransactions (stored : Option String)
    (parseJson : String → Option (List Transaction)) : List Transaction :=
  match stored with
  | none => []
  | some data =>
    if data = "" then []
    else
      match parseJson data with
      | some ts => ts
      | none => []

/-! ## Recurrence reconciliation (`src/components/TransactionList.tsx`) -/

/-- The previous-period computation of `pendingFixedTransactions` (lines
38-46): split the `YYYY-MM` filter month, decrement the month, wrap to
December of the previous year on underflow, and rebuild the string with
the month padded to two digits. `Number` on a non-digit piece (`NaN`) is
not modelled; the claims only quantify over canonical periods, on which
the parse succeeds and the `getD` defaults are never taken. -/
def prevPeriodOf (filterMonth : String) : String :=
  let parts := splitOnSep '-' filterMonth.data
  let year := (jsNumber (parts.getD 0 [])).getD 0
  let month := (jsNumber (parts.getD 1 [])).getD 0
  let prevMonth := month - 1
  if prevMonth = 0 then String.mk (mkPeriodChars (year - 1) 12)
  else String.mk (mkPeriodChars year prevMonth)

/-- The duplicate-detection predicate of `pendingFixedTransactions`: exact
equality on the triple `(title, amount, type)`. -/
def matchesKey (curr prev : Transaction) : Bool :=
  decide (curr.title = prev.title) && decide (curr.amount = prev.amount)
    && decide (curr.type = prev.type)

/-- Step 1 of `pendingFixedTransactions`: the fixed transactions of the
previous month (`t.date.startsWith(prevMonthStr) && t.isFixed`). -/
def prevMonthFixedOf (transactions : List Transaction) (filterMonth : String) :
    List Transaction :=
  transactions.filter fun t =>
    strStartsWith t.date (prevPeriodOf filterMonth) && t.isFixed

/-- Step 2 of `pendingFixedTransactions`: all transactions of the target
month (`t.date.startsWith(filterMonth)`), fixed or not. -/
def currentMonthTxOf (transactions : List Transaction) (filterMonth : String) :
    List Transaction :=
  transactions.filter fun t => strStartsWith t.date filterMonth

/-- `pendingFixedTransactions` (lines 35-67): the fixed transactions of the
previous month that have no `(title, amount, type)` counterpart among the
target month's transactions. -/
def pendingFixedTransactions (transactions : List Transaction)
    (filterMonth : String) : List Transaction :=
  (prevMonthFixedOf transactions filterMonth).filter fun prev =>
    !((currentMonthTxOf transactions filterMonth).any fun curr =>
        matchesKey curr prev)

/-- The day-of-month piece of a date string: `t.date.split('-')[2]`.
Indexing past the end of a JavaScript array yields `undefined`, which
template interpolation renders as the string `undefined`. -/
def dayOfMonthChars (date : String) : List Char :=
  (splitOnSep '-' date.data).getD 2 "undefined".data

/-- The clone `handleImportFixed` builds from one pending candidate `t`
(lines 77-87): a fresh id, the date rebuilt as
`year + "-" + padded month + "-" + original day`, `isPaid` reset to false,
every other field spread from `t`. `genId i` is the value of the `i`-th
call of the collaborator-supplied `generateId`. -/
def cloneOne (genId : Nat → String) (year month : Nat) (i : Nat)
    (t : Transaction) : Transaction :=
  { t with
    id := genId i
    date := String.mk (natChars year ++ '-' :: (padStart2 month ++ '-' :: dayOfMonthChars t.date))
    isPaid := false }

/-- The `map` of `handleImportFixed`, with the position threaded through so
each clone gets its own generated id. -/
def cloneAll (genId : Nat → String) (year month : Nat) :
    Nat → List Transaction → List Transaction
  | _, [] => []
  | i, t :: rest =>
    cloneOne genId year month i t :: cloneAll genId year month (i + 1) rest

/-- `handleImportFixed` (lines 69-90), reduced to its data transformation:
parse the target `YYYY-MM`, and clone every pending candidate into it.
The confirmation dialog and the `onBatchAdd` callback are caller-level
collaborators; the batch the callback receives is this list. -/
def handleImportFixed (genId : Nat → String) (pending : List Transaction)
    (filterMonth : String) : List Transaction :=
  let parts := splitOnSep '-' filterMonth.data
  let year := (jsNumber (parts.getD 0 [])).getD 0
  let month := (jsNumber (parts.getD 1 [])).getD 0
  cloneAll genId year month 0 pending

/-! ## Dashboard aggregation (`src/components/Dashboard.tsx`) -/

/-- The month-membership test of the Dashboard's `monthlyTransactions`
(lines 34-39): parse the date with a `T00:00:00` time part and compare
`getMonth()` (0-based, hence `m - 1`) and `getFullYear()` against the
reference month and year. An Invalid Date compares false. -/
def monthlyFilterPred (currentMonth currentYear : Nat) (t : Transaction) :
    Bool :=
  match jsDateParse (t.date ++ "T00:00:00") with
  | some (y, m, _) => decide (m - 1 = currentMonth ∧ y = currentYear)
  | none => false

/-- `monthlyTransactions` (lines 34-39), with the ambient
`new Date().getMonth()` / `getFullYear()` passed as parameters. -/
def monthlyTransactions (transactions : List Transaction)
    (currentMonth currentYear : Nat) : List Transaction :=
  transactions.filter (monthlyFilterPred currentMonth currentYear)

/-- One step of the `forEach` of `stats` (lines 44-52) on the accumulator
`(income, expense, incomeReceived, expensePaid)`. -/
def statsStep (acc : ℚ × ℚ × ℚ × ℚ) (t : Transaction) : ℚ × ℚ × ℚ × ℚ :=
  match acc with
  | (income, expense, incomeReceived, expensePaid) =>
    if t.type = TransactionType.income then
      (income + t.amount, expense,
        if t.isPaid then incomeReceived + t.amount else incomeReceived,
        expensePaid)
    else
      (income, expense + t.amount, incomeReceived,
        if t.isPaid then expensePaid + t.amount else expensePaid)

/-- `stats` (lines 41-62): fold the four accumulators over the given
transactions and package them as `SummaryStats`. -/
def stats (transactions : List Transaction) : SummaryStats :=
  match transactions.foldl statsStep (0, 0, 0, 0) with
  | (income, expense, incomeReceived, expensePaid) =>
    { totalIncome := income
      totalExpense := expense
      balance := incomeReceived - expensePaid
      forecastBalance := income - expense
      incomeReceived := incomeReceived
      expensePaid := expensePaid }

/-- JavaScript `a || b` on numbers, restricted to the exact-rational model:
`0` is the only falsy exact number, so `a || b` is `b` when `a = 0`. -/
def jsOrDefault (a b : ℚ) : ℚ :=
  if a = 0 then b else a

/-- The percent-received figure of the Dashboard (line 254):
`(stats.incomeReceived / (stats.totalIncome || 1)) * 100`. The `toFixed(0)`
rendering of this exact value is a display concern and is not modelled. -/
def percentReceived (transactions : List Transaction) : ℚ :=
  (stats transactions).incomeReceived
    / jsOrDefault (stats transactions).totalIncome 1 * 100

/-- The percent-paid figure of the Dashboard (line 264):
`(stats.expensePaid / (stats.totalExpense || 1)) * 100`. -/
def percentPaid (transactions : List Transaction) : ℚ :=
  (stats transactions).expensePaid
    / jsOrDefault (stats transactions).totalExpense 1 * 100

/-- One row of the annual report: the per-month sums. The `monthName`
field of the source is a locale-rendered display string and is not
modelled. -/
structure MonthEntry where
  income : ℚ
  expense : ℚ
deriving DecidableEq

/-- The value of `annualReportData` (lines 65-91). -/
structure AnnualReport where
  monthly : List MonthEntry
  totalYearIncome : ℚ
  totalYearExpense : ℚ
deriving DecidableEq

/-- Update the element at position `i` of a list in place (JavaScript
`data[month].income += ...` on the 12-element array). -/
def modifyIdx (f : MonthEntry → MonthEntry) : Nat → List MonthEntry → List MonthEntry
  | _, [] => []
  | 0, e :: rest => f e :: rest
  | i + 1, e :: rest => e :: modifyIdx f i rest

/-- One step of the `forEach` of `annualReportData` (lines 75-88): parse
the date; if the year matches and the transaction is paid, add its amount
to its month's bucket (`getMonth()` is `m - 1`) and to the matching grand
total. -/
def annualStep (currentYear : Nat) (acc : AnnualReport) (t : Transaction) :
    AnnualReport :=
  match jsDateParse (t.date ++ "T00:00:00") with
  | some (y, m, _) =>
    if y = currentYear ∧ t.isPaid then
      if t.type = TransactionType.income then
        { acc with
          monthly := modifyIdx (fun e => { e with income := e.income + t.amount }) (m - 1) acc.monthly
          totalYearIncome := acc.totalYearIncome + t.amount }
      else
        { acc with
          monthly := modifyIdx (fun e => { e with expense := e.expense + t.amount }) (m - 1) acc.monthly
          totalYearExpense := acc.totalYearExpense + t.amount }
    else acc
  | none => acc

/-- `annualReportData` (lines 65-91): start from twelve zero rows and fold
the whole log. -/
def annualReportData (transactions : List Transaction) (currentYear : Nat) :
    AnnualReport :=
  transactions.foldl (annualStep currentYear)
    { monthly := List.replicate 12 { income := 0, expense := 0 }
      totalYearIncome := 0
      totalYearExpense := 0 }

/-! ## Alerts (`src/components/Dashboard.tsx`, lines 94-124) -/

/-- One alert entry. The `message` is a locale-rendered display string and
is not modelled; the severity is the code's string, `"danger"` (the spec's
`overdue`) or `"warning"` (the spec's `dueSoon`). -/
structure AlertEntry where
  id : String
  severity : String
deriving DecidableEq

/-- The per-transaction test of the alerts loop (lines 102-121), with
`today` given as a day number: an unpaid expense strictly before today is
`danger`; otherwise, one at most three days from today is `warning`. An
Invalid Date yields no alert (its comparisons are false). -/
def alertCheck (todayNum : Nat) (t : Transaction) : Option AlertEntry :=
  if t.type = TransactionType.expense ∧ t.isPaid = false then
    match jsDateParse (t.date ++ "T00:00:00") with
    | some (y, m, d) =>
      let tNum := dayNumber y m d
      if tNum < todayNum then some { id := t.id, severity := "danger" }
      else if tNum ≤ todayNum + 3 then some { id := t.id, severity := "warning" }
      else none
    | none => none
  else none

/-- `alerts` (lines 94-124): a `forEach` pushing onto `activeAlerts`,
then `slice(0, 3)`. -/
def alerts (transactions : List Transaction) (todayNum : Nat) :
    List AlertEntry :=
  (transactions.foldl
    (fun acc t =>
      match alertCheck todayNum t with
      | some a => acc ++ [a]
      | none => acc)
    []).take 3
/-! ## Digit and decimal-rendering lemmas -/

theorem charDigit_digitChar (d : Nat) (hd : d ≤ 9) :
    charDigit (digitChar d) = some d := by
  interval_cases d <;> decide

theorem digitChar_ne_dash (d : Nat) (hd : d ≤ 9) : digitChar d ≠ '-' := by
  interval_cases d <;> decide

theorem digitChar_ne_T (d : Nat) (hd : d ≤ 9) : digitChar d ≠ 'T' := by
  interval_cases d <;> decide

theorem digitChar_inj (a b : Nat) (ha : a ≤ 9) (hb : b ≤ 9)
    (h : digitChar a = digitChar b) : a = b := by
  have h1 := charDigit_digitChar a ha
  have h2 := charDigit_digitChar b hb
  rw [h, h2] at h1
  exact Option.some_inj.1 h1.symm

theorem natCharsAux_step (fuel n : Nat) (acc : List Char) (hf : 1 ≤ fuel)
    (hn : 10 ≤ n) :
    natCharsAux fuel n acc = natCharsAux (fuel - 1) (n / 10) (digitChar (n % 10) :: acc) := by
  obtain ⟨f, rfl⟩ : ∃ f, fuel = f + 1 := ⟨fuel - 1, by omega⟩
  simp [natCharsAux, Nat.not_lt.2 hn]

theorem natCharsAux_small (fuel n : Nat) (acc : List Char) (hf : 1 ≤ fuel)
    (hn : n ≤ 9) :
    natCharsAux fuel n acc = digitChar n :: acc := by
  obtain ⟨f, rfl⟩ : ∃ f, fuel = f + 1 := ⟨fuel - 1, by omega⟩
  simp [natCharsAux, Nat.lt_succ_of_le hn]

theorem natChars_small (n : Nat) (hn : n ≤ 9) : natChars n = [digitChar n] :=
  natCharsAux_small _ _ _ (by omega) hn

theorem natChars_two (n : Nat) (h1 : 10 ≤ n) (h2 : n ≤ 99) :
    natChars n = [digitChar (n / 10), digitChar (n % 10)] := by
  unfold natChars
  rw [natCharsAux_step _ _ _ (by omega) h1,
    natCharsAux_small _ _ _ (by omega) (by omega)]

theorem natChars_four (n : Nat) (h1 : 1000 ≤ n) (h2 : n ≤ 9999) :
    natChars n = [digitChar (n / 1000), digitChar (n / 100 % 10),
      digitChar (n / 10 % 10), digitChar (n % 10)] := by
  unfold natChars
  rw [natCharsAux_step _ _ _ (by omega) (by omega),
    natCharsAux_step _ _ _ (by omega) (by omega),
    natCharsAux_step _ _ _ (by omega) (by omega),
    natCharsAux_small _ _ _ (by omega) (by omega)]
  have e1 : n / 10 / 10 = n / 100 := by omega
  have e2 : n / 100 / 10 = n / 1000 := by omega
  rw [e1, e2]

theorem padStart2_eq (n : Nat) (hn : n ≤ 99) :
    padStart2 n = [digitChar (n / 10), digitChar (n % 10)] := by
  unfold padStart2
  by_cases h : n ≤ 9
  · rw [natChars_small n h]
    have : n / 10 = 0 := by omega
    have e : n % 10 = n := by omega
    simp [this, e, digitChar]
  · rw [natChars_two n (by omega) hn]
    simp

/-! ## Splitting and parsing lemmas -/

theorem splitOnSep_no_sep (sep : Char) (l : List Char)
    (h : ∀ c ∈ l, c ≠ sep) : splitOnSep sep l = [l] := by
  induction l with
  | nil => rfl
  | cons c cs ih =>
    have hc : c ≠ sep := h c (by simp)
    have hrest : splitOnSep sep cs = [cs] := ih fun x hx => h x (by simp [hx])
    simp [splitOnSep, hc, hrest]

theorem splitOnSep_append (sep : Char) (l r : List Char)
    (h : ∀ c ∈ l, c ≠ sep) :
    splitOnSep sep (l ++ sep :: r) = l :: splitOnSep sep r := by
  induction l with
  | nil => simp [splitOnSep]
  | cons c cs ih =>
    have hc : c ≠ sep := h c (by simp)
    have hrest := ih fun x hx => h x (by simp [hx])
    simp only [List.cons_append, splitOnSep]
    rw [if_neg hc]
    simp only [List.append_eq]
    rw [hrest]

theorem mem_natChars_digit (n : Nat) (c : Char) (hc : c ∈ natChars n) :
    ∃ d, d ≤ 9 ∧ c = digitChar d := by
  suffices h : ∀ fuel m acc, c ∈ natCharsAux fuel m acc →
      (∃ d, d ≤ 9 ∧ c = digitChar d) ∨ c ∈ acc by
    rcases h (n + 1) n [] hc with h' | h'
    · exact h'
    · simp at h'
  intro fuel
  induction fuel with
  | zero => intro m acc h; exact Or.inr h
  | succ f ih =>
    intro m acc h
    by_cases hm : m < 10
    · rw [natCharsAux_small _ _ _ (by omega) (by omega)] at h
      rcases List.mem_cons.1 h with h' | h'
      · exact Or.inl ⟨m, by omega, h'⟩
      · exact Or.inr h'
    · rw [natCharsAux_step _ _ _ (by omega) (by omega)] at h
      simp only [Nat.add_sub_cancel] at h
      rcases ih (m / 10) (digitChar (m % 10) :: acc) h with h' | h'
      · exact Or.inl h'
      · rcases List.mem_cons.1 h' with h'' | h''
        · exact Or.inl ⟨m % 10, by omega, h''⟩
        · exact Or.inr h''

theorem mem_padStart2_digit (n : Nat) (c : Char) (hc : c ∈ padStart2 n) :
    ∃ d, d ≤ 9 ∧ c = digitChar d := by
  unfold padStart2 at hc
  by_cases h : (natChars n).length < 2
  · simp only [h, if_pos] at hc
    rcases List.mem_cons.1 hc with h' | h'
    · exact ⟨0, by omega, h'⟩
    · exact mem_natChars_digit n c h'
  · simp only [h, if_neg, not_false_iff] at hc
    exact mem_natChars_digit n c hc

theorem parseDigits_digitChars (ds : List Nat) (acc : Nat)
    (h : ∀ d ∈ ds, d ≤ 9) :
    parseDigits acc (ds.map digitChar)
      = some (ds.foldl (fun a d => a * 10 + d) acc) := by
  induction ds generalizing acc with
  | nil => rfl
  | cons d ds ih =>
    have hd : d ≤ 9 := h d (by simp)
    simp only [List.map_cons, parseDigits, charDigit_digitChar d hd,
      List.foldl_cons]
    exact ih _ fun x hx => h x (by simp [hx])

theorem jsNumber_natChars_four (y : Nat) (h1 : 1000 ≤ y) (h2 : y ≤ 9999) :
    jsNumber (natChars y) = some y := by
  rw [natChars_four y h1 h2]
  have : [digitChar (y / 1000), digitChar (y / 100 % 10),
      digitChar (y / 10 % 10), digitChar (y % 10)]
      = List.map digitChar [y / 1000, y / 100 % 10, y / 10 % 10, y % 10] := by
    simp
  rw [this]
  unfold jsNumber
  rw [parseDigits_digitChars _ _ (by intro d hd; simp at hd; omega)]
  simp only [List.foldl_cons, List.foldl_nil]
  congr 1
  omega

theorem jsNumber_padStart2 (m : Nat) (hm : m ≤ 99) :
    jsNumber (padStart2 m) = some m := by
  rw [padStart2_eq m hm]
  have : [digitChar (m / 10), digitChar (m % 10)]
      = List.map digitChar [m / 10, m % 10] := by simp
  rw [this]
  unfold jsNumber
  rw [parseDigits_digitChars _ _ (by intro d hd; simp at hd; omega)]
  simp only [List.foldl_cons, List.foldl_nil]
  congr 1
  omega

theorem splitOnSep_mkPeriodChars (y m : Nat) (_h1 : 1000 ≤ y) (_h2 : y ≤ 9999) :
    splitOnSep '-' (mkPeriodChars y m) = [natChars y, padStart2 m] := by
  unfold mkPeriodChars
  rw [splitOnSep_append '-' _ _ (by
    intro c hc
    obtain ⟨d, hd, rfl⟩ := mem_natChars_digit y c hc
    exact digitChar_ne_dash d hd)]
  rw [splitOnSep_no_sep '-' _ (by
    intro c hc
    obtain ⟨d, hd, rfl⟩ := mem_padStart2_digit m c hc
    exact digitChar_ne_dash d hd)]

theorem mkPeriodStr_parse (y m : Nat) (h1 : 1000 ≤ y) (h2 : y ≤ 9999)
    (hm : m ≤ 99) :
    ((jsNumber ((splitOnSep '-' (mkPeriodStr y m).data).getD 0 [])).getD 0 = y)
      ∧ ((jsNumber ((splitOnSep '-' (mkPeriodStr y m).data).getD 1 [])).getD 0 = m) := by
  have hdata : (mkPeriodStr y m).data = mkPeriodChars y m := rfl
  rw [hdata, splitOnSep_mkPeriodChars y m h1 h2]
  constructor
  · simp [jsNumber_natChars_four y h1 h2]
  · simp [jsNumber_padStart2 m hm]

/-! ## Prefix lemmas -/

theorem isPrefixOf_append_right (l r : List Char) :
    l.isPrefixOf (l ++ r) = true := by
  rw [List.isPrefixOf_iff_prefix]
  exact List.prefix_append l r

theorem prefix_append_cancel (l1 l2 x y : List Char)
    (hlen : l1.length = l2.length) :
    (l1 ++ x) <+: (l2 ++ y) ↔ l1 = l2 ∧ x <+: y := by
  induction l1 generalizing l2 with
  | nil =>
    cases l2 with
    | nil => simp
    | cons b bs => simp at hlen
  | cons a as ih =>
    cases l2 with
    | nil => simp at hlen
    | cons b bs =>
      simp only [List.length_cons, Nat.add_right_cancel_iff] at hlen
      simp only [List.cons_append, List.cons_prefix_cons, ih bs hlen,
        List.cons.injEq]
      tauto

theorem strStartsWith_self_append (l r : List Char) :
    strStartsWith (String.mk (l ++ r)) (String.mk l) = true := by
  unfold strStartsWith
  exact isPrefixOf_append_right l r

/-! ## Canonical-date parsing round trip -/

/-- The canonical `YYYY-MM-DD` rendering of a date triple (four-digit
year, zero-padded month and day). -/
def canonicalDateStr (y m d : Nat) : String :=
  String.mk (natChars y ++ '-' :: (padStart2 m ++ '-' :: padStart2 d))

theorem parseCanonicalDate_roundtrip (y m d : Nat) (hy1 : 1000 ≤ y)
    (hy2 : y ≤ 9999) (hv : isValidDate y m d) :
    parseCanonicalDate (canonicalDateStr y m d).data = some (y, m, d) := by
  obtain ⟨hm1, hm2, hd1, hd2⟩ := hv
  have hm99 : m ≤ 99 := by omega
  have hd99 : d ≤ 99 := by
    have : daysInMonth y m ≤ 31 := by
      unfold daysInMonth
      split
      · split <;> omega
      · split <;> omega
    omega
  have hdata : (canonicalDateStr y m d).data
      = natChars y ++ '-' :: (padStart2 m ++ '-' :: padStart2 d) := rfl
  rw [hdata, natChars_four y hy1 hy2, padStart2_eq m hm99, padStart2_eq d hd99]
  simp only [List.cons_append, List.nil_append, List.append_assoc]
  unfold parseCanonicalDate
  simp only [charDigit_digitChar _ (by omega : y / 1000 ≤ 9),
    charDigit_digitChar _ (by omega : y / 100 % 10 ≤ 9),
    charDigit_digitChar _ (by omega : y / 10 % 10 ≤ 9),
    charDigit_digitChar _ (by omega : y % 10 ≤ 9),
    charDigit_digitChar _ (by omega : m / 10 ≤ 9),
    charDigit_digitChar _ (by omega : m % 10 ≤ 9),
    charDigit_digitChar _ (by omega : d / 10 ≤ 9),
    charDigit_digitChar _ (by omega : d % 10 ≤ 9)]
  have ey : ((y / 1000 * 10 + y / 100 % 10) * 10 + y / 10 % 10) * 10 + y % 10 = y := by
    omega
  have em : m / 10 * 10 + m % 10 = m := by omega
  have ed : d / 10 * 10 + d % 10 = d := by omega
  simp only [eq_self_iff_true, and_self, if_true, ey, em, ed]
  rw [if_pos (show 1 ≤ m ∧ m ≤ 12 ∧ 1 ≤ d ∧ d ≤ daysInMonth y m from
    ⟨hm1, hm2, hd1, hd2⟩)]

theorem jsDateParse_canonical (y m d : Nat) (hy1 : 1000 ≤ y)
    (hy2 : y ≤ 9999) (hv : isValidDate y m d) :
    jsDateParse (canonicalDateStr y m d ++ "T00:00:00") = some (y, m, d) := by
  have hdata : (canonicalDateStr y m d ++ "T00:00:00").data
      = (canonicalDateStr y m d).data ++ 'T' :: "00:00:00".data := rfl
  unfold jsDateParse
  rw [hdata, splitOnSep_append 'T' _ _ (by
    intro c hc
    have hdata2 : (canonicalDateStr y m d).data
        = natChars y ++ '-' :: (padStart2 m ++ '-' :: padStart2 d) := rfl
    rw [hdata2] at hc
    simp only [List.mem_append, List.mem_cons] at hc
    rcases hc with h | h | h
    · obtain ⟨e, he, rfl⟩ := mem_natChars_digit y c h
      exact digitChar_ne_T e he
    · subst h; decide
    · rcases h with h | h | h
      · obtain ⟨e, he, rfl⟩ := mem_padStart2_digit m c h
        exact digitChar_ne_T e he
      · subst h; decide
      · obtain ⟨e, he, rfl⟩ := mem_padStart2_digit d c h
        exact digitChar_ne_T e he)]
  rw [splitOnSep_no_sep 'T' _ (by decide)]
  simp only [if_pos rfl]
  exact parseCanonicalDate_roundtrip y m d hy1 hy2 hv

/-! ## Previous-period characterization -/

theorem prevPeriodOf_mkPeriodStr (y m : Nat) (hy1 : 1000 ≤ y)
    (hy2 : y ≤ 9999) (hm1 : 1 ≤ m) (hm2 : m ≤ 12) :
    prevPeriodOf (mkPeriodStr y m)
      = if m = 1 then mkPeriodStr (y - 1) 12 else mkPeriodStr y (m - 1) := by
  obtain ⟨hyr, hmr⟩ := mkPeriodStr_parse y m hy1 hy2 (by omega)
  unfold prevPeriodOf
  simp only [hyr, hmr]
  by_cases h : m = 1
  · subst h
    simp [mkPeriodStr]
  · rw [if_neg (by omega), if_neg h]
    rfl

theorem handleImportFixed_eq (genId : Nat → String) (pending : List Transaction)
    (y m : Nat) (hy1 : 1000 ≤ y) (hy2 : y ≤ 9999) (hm : m ≤ 99) :
    handleImportFixed genId pending (mkPeriodStr y m)
      = cloneAll genId y m 0 pending := by
  obtain ⟨hyr, hmr⟩ := mkPeriodStr_parse y m hy1 hy2 hm
  unfold handleImportFixed
  simp only [hyr, hmr]

/-! ## Summation characterization of `stats` -/

/-- Sum of the `amount` field over a list of transactions. -/
def sumAmounts (ts : List Transaction) : ℚ :=
  (ts.map Transaction.amount).sum

/-- Sum of `amount` over the income transactions, paid or not. -/
def incomeTotalSpec (ts : List Transaction) : ℚ :=
  sumAmounts (ts.filter fun t => decide (t.type = TransactionType.income))

/-- Sum of `amount` over the expense transactions, paid or not. -/
def expenseTotalSpec (ts : List Transaction) : ℚ :=
  sumAmounts (ts.filter fun t => decide (t.type = TransactionType.expense))

/-- Sum of `amount` over the paid income transactions. -/
def incomeReceivedSpec (ts : List Transaction) : ℚ :=
  sumAmounts (ts.filter fun t =>
    decide (t.type = TransactionType.income) && t.isPaid)

/-- Sum of `amount` over the paid expense transactions. -/
def expensePaidSpec (ts : List Transaction) : ℚ :=
  sumAmounts (ts.filter fun t =>
    decide (t.type = TransactionType.expense) && t.isPaid)

theorem type_expense_of_ne (t : Transaction)
    (h : ¬t.type = TransactionType.income) :
    t.type = TransactionType.expense := by
  cases htt : t.type
  · exact absurd htt h
  · rfl

theorem stats_foldl (ts : List Transaction) (a b c d : ℚ) :
    ts.foldl statsStep (a, b, c, d)
      = (a + incomeTotalSpec ts, b + expenseTotalSpec ts,
         c + incomeReceivedSpec ts, d + expensePaidSpec ts) := by
  induction ts generalizing a b c d with
  | nil =>
    simp [incomeTotalSpec, expenseTotalSpec, incomeReceivedSpec,
      expensePaidSpec, sumAmounts]
  | cons t ts ih =>
    simp only [List.foldl_cons]
    by_cases hty : t.type = TransactionType.income
    · have hne : ¬t.type = TransactionType.expense := by
        rw [hty]; intro h; cases h
      by_cases hp : t.isPaid
      · simp only [statsStep, hty, if_pos, hp, if_true, ih]
        simp only [incomeTotalSpec, expenseTotalSpec, incomeReceivedSpec,
          expensePaidSpec, sumAmounts, List.filter_cons, hty, hne, hp,
          decide_True, decide_False, Bool.true_and, Bool.and_self,
          List.map_cons, List.sum_cons, if_true, if_false, Bool.false_and,
          decide_eq_true_eq, ite_true, ite_false]
        refine Prod.ext ?_ (Prod.ext ?_ (Prod.ext ?_ ?_)) <;> simp <;> ring
      · simp only [statsStep, hty, if_pos, hp, if_false, ih, Bool.false_eq_true]
        simp only [incomeTotalSpec, expenseTotalSpec, incomeReceivedSpec,
          expensePaidSpec, sumAmounts, List.filter_cons, hty, hne, hp,
          decide_True, decide_False, Bool.true_and, Bool.and_self,
          List.map_cons, List.sum_cons, if_true, if_false, Bool.false_and,
          decide_eq_true_eq, ite_true, ite_false, Bool.and_false]
        refine Prod.ext ?_ (Prod.ext ?_ (Prod.ext ?_ ?_)) <;> simp <;> ring
    · have hex : t.type = TransactionType.expense := type_expense_of_ne t hty
      by_cases hp : t.isPaid
      · simp only [statsStep, hty, if_neg, hp, if_true, ih, if_false]
        simp only [incomeTotalSpec, expenseTotalSpec, incomeReceivedSpec,
          expensePaidSpec, sumAmounts, List.filter_cons, hty, hex, hp,
          decide_True, decide_False, Bool.true_and, Bool.and_self,
          List.map_cons, List.sum_cons, if_true, if_false, Bool.false_and,
          decide_eq_true_eq, ite_true, ite_false]
        refine Prod.ext ?_ (Prod.ext ?_ (Prod.ext ?_ ?_)) <;> simp <;> ring
      · simp only [statsStep, hty, if_neg, hp, if_false, ih, Bool.false_eq_true]
        simp only [incomeTotalSpec, expenseTotalSpec, incomeReceivedSpec,
          expensePaidSpec, sumAmounts, List.filter_cons, hty, hex, hp,
          decide_True, decide_False, Bool.true_and, Bool.and_self,
          List.map_cons, List.sum_cons, if_true, if_false, Bool.false_and,
          decide_eq_true_eq, ite_true, ite_false, Bool.and_false]
        refine Prod.ext ?_ (Prod.ext ?_ (Prod.ext ?_ ?_)) <;> simp <;> ring

theorem stats_eq (ts : List Transaction) :
    stats ts =
      { totalIncome := incomeTotalSpec ts
        totalExpense := expenseTotalSpec ts
        balance := incomeReceivedSpec ts - expensePaidSpec ts
        forecastBalance := incomeTotalSpec ts - expenseTotalSpec ts
        incomeReceived := incomeReceivedSpec ts
        expensePaid := expensePaidSpec ts } := by
  unfold stats
  rw [stats_foldl ts 0 0 0 0]
  simp

/-! ## Order-faithfulness of the day count -/

/-- Arithmetic form of the leap-year test. -/
theorem isLeap_iff (y : Nat) :
    isLeap y = true ↔ (y % 4 = 0 ∧ (y % 100 ≠ 0 ∨ y % 400 = 0)) := by
  unfold isLeap
  simp [Bool.and_eq_true, Bool.or_eq_true, decide_eq_true_eq, bne_iff_ne]

set_option maxHeartbeats 1000000 in
/-- The day count of the calendar successor of a valid date is one more
than the date's own: `dayNumber` embeds calendar order (and hence JS Date
timestamp order of the parsed dates) into `<` on `Nat`, with consecutive
dates exactly one apart, also across month and year boundaries. -/
theorem dayNumber_nextDate (y m d y' m' d' : Nat) (hy : 1 ≤ y)
    (hv : isValidDate y m d) (hnext : nextDate y m d = (y', m', d')) :
    dayNumber y' m' d' = dayNumber y m d + 1 := by
  obtain ⟨hm1, hm2, hd1, hd2⟩ := hv
  unfold nextDate at hnext
  by_cases hlt : d < daysInMonth y m
  · rw [if_pos hlt] at hnext
    injection hnext with h1 h2
    injection h2 with h2a h2b
    subst h1; subst h2a; subst h2b
    unfold dayNumber
    omega
  · rw [if_neg hlt] at hnext
    have hdeq : d = daysInMonth y m := by omega
    by_cases hm : m < 12
    · rw [if_pos hm] at hnext
      injection hnext with h1 h2
      injection h2 with h2a h2b
      subst h1; subst h2a; subst h2b
      have hmonth : daysBeforeMonth y (m + 1)
          = daysBeforeMonth y m + daysInMonth y m := by
        interval_cases m <;> by_cases hl : isLeap y = true <;>
          simp [daysBeforeMonth, daysInMonth, hl]
      unfold dayNumber
      omega
    · rw [if_neg hm] at hnext
      injection hnext with h1 h2
      injection h2 with h2a h2b
      subst h1; subst h2a; subst h2b
      have hmeq : m = 12 := by omega
      subst hmeq
      have hd31 : d = 31 := by
        rw [hdeq]; unfold daysInMonth; norm_num
      subst hd31
      have h1 : daysBeforeMonth (y + 1) 1 = 0 := by
        simp [daysBeforeMonth]
      by_cases hl : isLeap y = true
      · have h12 : daysBeforeMonth y 12 = 335 := by
          simp [daysBeforeMonth, hl]
        have hsplit := (isLeap_iff y).1 hl
        unfold dayNumber
        rw [h1, h12]
        omega
      · have h12 : daysBeforeMonth y 12 = 334 := by
          simp [daysBeforeMonth, hl]
        have hsplit : ¬(y % 4 = 0 ∧ (y % 100 ≠ 0 ∨ y % 400 = 0)) :=
          fun h => hl ((isLeap_iff y).2 h)
        unfold dayNumber
        rw [h1, h12]
        omega

/-! ## Alert characterization -/

/-- The claim-side alert classification: an unpaid expense is `danger`
(overdue) when its date is strictly before today, `warning` (due soon)
when its date is not before today and at most today plus three days, and
unalerted otherwise. -/
def claimAlert (todayNum : Nat) (t : Transaction) : Option AlertEntry :=
  if t.type = TransactionType.expense ∧ t.isPaid = false then
    match jsDateParse (t.date ++ "T00:00:00") with
    | some (y, m, d) =>
      if dayNumber y m d < todayNum then
        some { id := t.id, severity := "danger" }
      else if todayNum ≤ dayNumber y m d ∧ dayNumber y m d ≤ todayNum + 3 then
        some { id := t.id, severity := "warning" }
      else none
    | none => none
  else none

theorem alertCheck_eq_claimAlert (todayNum : Nat) (t : Transaction) :
    alertCheck todayNum t = claimAlert todayNum t := by
  unfold alertCheck claimAlert
  split
  · cases hp : jsDateParse (t.date ++ "T00:00:00") with
    | none => rfl
    | some triple =>
      obtain ⟨y, m, d⟩ := triple
      dsimp only
      by_cases h1 : dayNumber y m d < todayNum
      · rw [if_pos h1, if_pos h1]
      · rw [if_neg h1, if_neg h1]
        by_cases h2 : dayNumber y m d ≤ todayNum + 3
        · rw [if_pos h2, if_pos ⟨by omega, h2⟩]
        · rw [if_neg h2, if_neg (by omega)]
  · rfl

theorem alerts_foldl (todayNum : Nat) (ts : List Transaction)
    (init : List AlertEntry) :
    ts.foldl
      (fun acc t =>
        match alertCheck todayNum t with
        | some a => acc ++ [a]
        | none => acc)
      init = init ++ ts.filterMap (alertCheck todayNum) := by
  induction ts generalizing init with
  | nil => simp
  | cons t ts ih =>
    simp only [List.foldl_cons, List.filterMap_cons]
    cases h : alertCheck todayNum t with
    | none => rw [ih]
    | some a => rw [ih]; simp

/-! ## Annual-report characterization -/

/-- The claim-side month-membership-and-settled test for the annual
report: the transaction's date parses, falls in the given year and
0-based month `i`, and the transaction is paid. -/
def inYearMonthPaid (year i : Nat) (t : Transaction) : Bool :=
  (match jsDateParse (t.date ++ "T00:00:00") with
   | some (y, m, _) => decide (y = year) && decide (m - 1 = i)
   | none => false) && t.isPaid

/-- The claim-side settled-in-year test for the grand totals. -/
def inYearPaid (year : Nat) (t : Transaction) : Bool :=
  (match jsDateParse (t.date ++ "T00:00:00") with
   | some (y, _, _) => decide (y = year)
   | none => false) && t.isPaid

/-- Per-month settled income: sum of `amount` over the paid income
transactions of 0-based month `i` of `year`. -/
def monthIncomePaid (ts : List Transaction) (year i : Nat) : ℚ :=
  sumAmounts (ts.filter fun t =>
    inYearMonthPaid year i t && decide (t.type = TransactionType.income))

/-- Per-month settled expense. -/
def monthExpensePaid (ts : List Transaction) (year i : Nat) : ℚ :=
  sumAmounts (ts.filter fun t =>
    inYearMonthPaid year i t && decide (t.type = TransactionType.expense))

/-- Settled income of the whole year. -/
def yearIncomePaid (ts : List Transaction) (year : Nat) : ℚ :=
  sumAmounts (ts.filter fun t =>
    inYearPaid year t && decide (t.type = TransactionType.income))

/-- Settled expense of the whole year. -/
def yearExpensePaid (ts : List Transaction) (year : Nat) : ℚ :=
  sumAmounts (ts.filter fun t =>
    inYearPaid year t && decide (t.type = TransactionType.expense))

theorem length_modifyIdx (f : MonthEntry → MonthEntry) (i : Nat)
    (l : List MonthEntry) : (modifyIdx f i l).length = l.length := by
  induction l generalizing i with
  | nil => cases i <;> rfl
  | cons e rest ih =>
    cases i with
    | zero => rfl
    | succ j => simp [modifyIdx, ih]

theorem getD_modifyIdx (f : MonthEntry → MonthEntry) (i j : Nat)
    (l : List MonthEntry) (dflt : MonthEntry) :
    (modifyIdx f j l).getD i dflt
      = if i = j ∧ j < l.length then f (l.getD i dflt) else l.getD i dflt := by
  induction l generalizing i j with
  | nil => cases j <;> simp [modifyIdx]
  | cons e rest ih =>
    cases j with
    | zero =>
      cases i with
      | zero => simp [modifyIdx]
      | succ i' => simp [modifyIdx]
    | succ j' =>
      cases i with
      | zero => simp [modifyIdx]
      | succ i' =>
        simp only [modifyIdx, List.getD_cons_succ, List.length_cons]
        rw [ih i' j']
        by_cases h : i' = j' ∧ j' < rest.length
        · rw [if_pos h, if_pos (by omega)]
        · rw [if_neg h, if_neg (by omega)]

/-! ## Parse inversion bounds -/

theorem parseCanonicalDate_bounds (cs : List Char) (y m d : Nat)
    (h : parseCanonicalDate cs = some (y, m, d)) :
    1 ≤ m ∧ m ≤ 12 ∧ 1 ≤ d ∧ d ≤ daysInMonth y m := by
  unfold parseCanonicalDate at h
  split at h
  · split at h
    · split at h
      · dsimp only at h
        split at h
        case isTrue hcond =>
          injection h with h'
          rw [Prod.mk.injEq, Prod.mk.injEq] at h'
          obtain ⟨hy, hm, hd⟩ := h'
          rw [hy, hm, hd] at hcond
          exact hcond
        case isFalse hcond => cases h
      · cases h
    · cases h
  · cases h

theorem jsDateParse_bounds (s : String) (y m d : Nat)
    (h : jsDateParse s = some (y, m, d)) :
    1 ≤ m ∧ m ≤ 12 ∧ 1 ≤ d ∧ d ≤ daysInMonth y m := by
  unfold jsDateParse at h
  split at h
  · split at h
    · exact parseCanonicalDate_bounds _ y m d h
    · cases h
  · cases h

/-! ## Fold invariant of the annual report -/

theorem sumAmounts_filter_cons (p : Transaction → Bool) (t : Transaction)
    (ts : List Transaction) :
    sumAmounts ((t :: ts).filter p)
      = (if p t then t.amount else 0) + sumAmounts (ts.filter p) := by
  by_cases h : p t <;> simp [List.filter_cons, h, sumAmounts]

theorem annual_foldl (year : Nat) (ts : List Transaction) :
    ∀ acc : AnnualReport, acc.monthly.length = 12 →
      (ts.foldl (annualStep year) acc).monthly.length = 12
      ∧ (∀ i, i < 12 →
          ((ts.foldl (annualStep year) acc).monthly.getD i ⟨0, 0⟩).income
            = (acc.monthly.getD i ⟨0, 0⟩).income + monthIncomePaid ts year i
          ∧ ((ts.foldl (annualStep year) acc).monthly.getD i ⟨0, 0⟩).expense
            = (acc.monthly.getD i ⟨0, 0⟩).expense + monthExpensePaid ts year i)
      ∧ (ts.foldl (annualStep year) acc).totalYearIncome
          = acc.totalYearIncome + yearIncomePaid ts year
      ∧ (ts.foldl (annualStep year) acc).totalYearExpense
          = acc.totalYearExpense + yearExpensePaid ts year := by
  induction ts with
  | nil =>
    intro acc hlen
    refine ⟨hlen, fun i hi => ⟨?_, ?_⟩, ?_, ?_⟩ <;>
      simp [monthIncomePaid, monthExpensePaid, yearIncomePaid,
        yearExpensePaid, sumAmounts]
  | cons t ts ih =>
    intro acc hlen
    simp only [List.foldl_cons]
    have hmi : ∀ i, monthIncomePaid (t :: ts) year i
        = (if inYearMonthPaid year i t && decide (t.type = TransactionType.income)
            then t.amount else 0) + monthIncomePaid ts year i :=
      fun i => sumAmounts_filter_cons _ t ts
    have hme : ∀ i, monthExpensePaid (t :: ts) year i
        = (if inYearMonthPaid year i t && decide (t.type = TransactionType.expense)
            then t.amount else 0) + monthExpensePaid ts year i :=
      fun i => sumAmounts_filter_cons _ t ts
    have hyi : yearIncomePaid (t :: ts) year
        = (if inYearPaid year t && decide (t.type = TransactionType.income)
            then t.amount else 0) + yearIncomePaid ts year :=
      sumAmounts_filter_cons _ t ts
    have hye : yearExpensePaid (t :: ts) year
        = (if inYearPaid year t && decide (t.type = TransactionType.expense)
            then t.amount else 0) + yearExpensePaid ts year :=
      sumAmounts_filter_cons _ t ts
    cases hp : jsDateParse (t.date ++ "T00:00:00") with
    | none =>
      have hstep : annualStep year acc t = acc := by
        unfold annualStep; rw [hp]
      have hmf : ∀ i, inYearMonthPaid year i t = false := by
        intro i; unfold inYearMonthPaid; rw [hp]; simp
      have hyf : inYearPaid year t = false := by
        unfold inYearPaid; rw [hp]; simp
      rw [hstep]
      obtain ⟨hl, hmo, hti, hte⟩ := ih acc hlen
      refine ⟨hl, fun i hi => ?_, ?_, ?_⟩
      · obtain ⟨moi, moe⟩ := hmo i hi
        exact ⟨by rw [moi, hmi i, hmf i]; simp,
          by rw [moe, hme i, hmf i]; simp⟩
      · rw [hti, hyi, hyf]; simp
      · rw [hte, hye, hyf]; simp
    | some triple =>
      obtain ⟨y, m, d⟩ := triple
      have hmb := jsDateParse_bounds _ y m d hp
      by_cases hcond : y = year ∧ t.isPaid = true
      · obtain ⟨hy, hpaid⟩ := hcond
        have hby : (decide (y = year) : Bool) = true := by simp [hy]
        by_cases hty : t.type = TransactionType.income
        · have hne : ¬t.type = TransactionType.expense := by
            rw [hty]; intro hco; cases hco
          have hbi : (decide (t.type = TransactionType.income) : Bool) = true := by
            simp [hty]
          have hbe : (decide (t.type = TransactionType.expense) : Bool) = false := by
            simp [hne]
          have hstep : annualStep year acc t
              = { acc with
                  monthly := modifyIdx
                    (fun e => { e with income := e.income + t.amount })
                    (m - 1) acc.monthly
                  totalYearIncome := acc.totalYearIncome + t.amount } := by
            unfold annualStep; rw [hp]
            dsimp only
            rw [if_pos ⟨hy, hpaid⟩, if_pos hty]
          have hlen2 : (annualStep year acc t).monthly.length = 12 := by
            rw [hstep]; dsimp only; rw [length_modifyIdx]; exact hlen
          obtain ⟨hl, hmo, hti, hte⟩ := ih (annualStep year acc t) hlen2
          refine ⟨hl, fun i hi => ?_, ?_, ?_⟩
          · obtain ⟨moi, moe⟩ := hmo i hi
            constructor
            · rw [moi, hmi i, hstep]
              dsimp only
              rw [getD_modifyIdx]
              unfold inYearMonthPaid
              rw [hp]
              dsimp only
              rw [hby, hbi, hpaid]
              by_cases hieq : i = m - 1
              · have hbm : (decide (m - 1 = i) : Bool) = true := by
                  simp [hieq]
                rw [hbm, if_pos ⟨hieq, by rw [hlen]; omega⟩]
                dsimp only
                simp only [Bool.true_and, Bool.and_true, Bool.and_self, eq_self_iff_true, if_true]
                ring
              · have hbm : (decide (m - 1 = i) : Bool) = false := by
                  simp; omega
                rw [hbm, if_neg (by intro hco; exact hieq hco.1)]
                simp only [Bool.true_and, Bool.false_and, Bool.and_true,
                  Bool.and_false, Bool.false_eq_true, if_false]
                ring
            · rw [moe, hme i, hstep]
              dsimp only
              rw [getD_modifyIdx]
              unfold inYearMonthPaid
              rw [hp]
              dsimp only
              rw [hby, hbe, hpaid]
              simp only [Bool.and_false, Bool.false_eq_true, if_false]
              by_cases hieq : i = m - 1
              · rw [if_pos ⟨hieq, by rw [hlen]; omega⟩]
                dsimp only
                ring
              · rw [if_neg (by intro hco; exact hieq hco.1)]
                ring
          · rw [hti, hstep, hyi]
            unfold inYearPaid
            rw [hp]
            dsimp only
            rw [hby, hbi, hpaid]
            simp only [Bool.true_and, Bool.and_true, Bool.and_self, eq_self_iff_true, if_true]
            ring
          · rw [hte, hstep, hye]
            unfold inYearPaid
            rw [hp]
            dsimp only
            rw [hby, hbe, hpaid]
            simp only [Bool.true_and, Bool.and_false, Bool.false_eq_true, if_false]
            ring
        · have hex : t.type = TransactionType.expense :=
            type_expense_of_ne t hty
          have hbi : (decide (t.type = TransactionType.income) : Bool) = false := by
            simp [hty]
          have hbe : (decide (t.type = TransactionType.expense) : Bool) = true := by
            simp [hex]
          have hstep : annualStep year acc t
              = { acc with
                  monthly := modifyIdx
                    (fun e => { e with expense := e.expense + t.amount })
                    (m - 1) acc.monthly
                  totalYearExpense := acc.totalYearExpense + t.amount } := by
            unfold annualStep; rw [hp]
            dsimp only
            rw [if_pos ⟨hy, hpaid⟩, if_neg hty]
          have hlen2 : (annualStep year acc t).monthly.length = 12 := by
            rw [hstep]; dsimp only; rw [length_modifyIdx]; exact hlen
          obtain ⟨hl, hmo, hti, hte⟩ := ih (annualStep year acc t) hlen2
          refine ⟨hl, fun i hi => ?_, ?_, ?_⟩
          · obtain ⟨moi, moe⟩ := hmo i hi
            constructor
            · rw [moi, hmi i, hstep]
              dsimp only
              rw [getD_modifyIdx]
              unfold inYearMonthPaid
              rw [hp]
              dsimp only
              rw [hby, hbi, hpaid]
              simp only [Bool.and_false, Bool.false_eq_true, if_false]
              by_cases hieq : i = m - 1
              · rw [if_pos ⟨hieq, by rw [hlen]; omega⟩]
                dsimp only
                ring
              · rw [if_neg (by intro hco; exact hieq hco.1)]
                ring
            · rw [moe, hme i, hstep]
              dsimp only
              rw [getD_modifyIdx]
              unfold inYearMonthPaid
              rw [hp]
              dsimp only
              rw [hby, hbe, hpaid]
              by_cases hieq : i = m - 1
              · have hbm : (decide (m - 1 = i) : Bool) = true := by
                  simp [hieq]
                rw [hbm, if_pos ⟨hieq, by rw [hlen]; omega⟩]
                dsimp only
                simp only [Bool.true_and, Bool.and_true, Bool.and_self, eq_self_iff_true, if_true]
                ring
              · have hbm : (decide (m - 1 = i) : Bool) = false := by
                  simp; omega
                rw [hbm, if_neg (by intro hco; exact hieq hco.1)]
                simp only [Bool.true_and, Bool.false_and, Bool.and_true,
                  Bool.and_false, Bool.false_eq_true, if_false]
                ring
          · rw [hti, hstep, hyi]
            unfold inYearPaid
            rw [hp]
            dsimp only
            rw [hby, hbi, hpaid]
            simp only [Bool.true_and, Bool.and_false, Bool.false_eq_true, if_false]
            ring
          · rw [hte, hstep, hye]
            unfold inYearPaid
            rw [hp]
            dsimp only
            rw [hby, hbe, hpaid]
            simp only [Bool.true_and, Bool.and_true, Bool.and_self, eq_self_iff_true, if_true]
            ring
      · have hstep : annualStep year acc t = acc := by
          unfold annualStep; rw [hp]
          dsimp only
          rw [if_neg hcond]
        have hmf : ∀ i, inYearMonthPaid year i t = false := by
          intro i
          unfold inYearMonthPaid
          rw [hp]
          dsimp only
          rcases not_and_or.1 hcond with hny | hnp
          · have hby : (decide (y = year) : Bool) = false := by simp [hny]
            rw [hby]; simp
          · have hbp : t.isPaid = false := by
              cases hpb : t.isPaid
              · rfl
              · exact absurd hpb hnp
            rw [hbp]; simp
        have hyf : inYearPaid year t = false := by
          unfold inYearPaid
          rw [hp]
          dsimp only
          rcases not_and_or.1 hcond with hny | hnp
          · have hby : (decide (y = year) : Bool) = false := by simp [hny]
            rw [hby]; simp
          · have hbp : t.isPaid = false := by
              cases hpb : t.isPaid
              · rfl
              · exact absurd hpb hnp
            rw [hbp]; simp
        rw [hstep]
        obtain ⟨hl, hmo, hti, hte⟩ := ih acc hlen
        refine ⟨hl, fun i hi => ?_, ?_, ?_⟩
        · obtain ⟨moi, moe⟩ := hmo i hi
          exact ⟨by rw [moi, hmi i, hmf i]; simp,
            by rw [moe, hme i, hmf i]; simp⟩
        · rw [hti, hyi, hyf]; simp
        · rw [hte, hye, hyf]; simp

/-! ## Clone lemmas -/

theorem cloneAll_length (genId : Nat → String) (y m : Nat)
    (l : List Transaction) : ∀ i, (cloneAll genId y m i l).length = l.length := by
  induction l with
  | nil => intro i; rfl
  | cons t rest ih => intro i; simp [cloneAll, ih]

theorem cloneAll_getElem (genId : Nat → String) (y m : Nat)
    (l : List Transaction) :
    ∀ i j, (cloneAll genId y m i l)[j]?
      = (l[j]?).map (cloneOne genId y m (i + j)) := by
  induction l with
  | nil => intro i j; simp [cloneAll]
  | cons t rest ih =>
    intro i j
    cases j with
    | zero => simp [cloneAll]
    | succ j' =>
      simp only [cloneAll, List.getElem?_cons_succ, ih (i + 1) j',
        show i + 1 + j' = i + (j' + 1) from by omega]

theorem mem_cloneAll (genId : Nat → String) (y m : Nat)
    (l : List Transaction) (c : Transaction) :
    ∀ i, c ∈ cloneAll genId y m i l →
      ∃ j t, t ∈ l ∧ c = cloneOne genId y m j t := by
  induction l with
  | nil => intro i h; simp [cloneAll] at h
  | cons t rest ih =>
    intro i h
    rcases List.mem_cons.1 h with h' | h'
    · exact ⟨i, t, by simp, h'⟩
    · obtain ⟨j, u, hu, hc⟩ := ih (i + 1) h'
      exact ⟨j, u, by simp [hu], hc⟩

theorem cloneAll_mem_of_mem (genId : Nat → String) (y m : Nat)
    (l : List Transaction) (t : Transaction) (ht : t ∈ l) :
    ∀ i, ∃ j, cloneOne genId y m j t ∈ cloneAll genId y m i l := by
  induction l with
  | nil => cases ht
  | cons u rest ih =>
    intro i
    rcases List.mem_cons.1 ht with h' | h'
    · exact ⟨i, by rw [h']; simp [cloneAll]⟩
    · obtain ⟨j, hj⟩ := ih h' (i + 1)
      exact ⟨j, by simp [cloneAll, hj]⟩

theorem cloneOne_date (genId : Nat → String) (y m i : Nat) (t : Transaction) :
    (cloneOne genId y m i t).date
      = String.mk (mkPeriodChars y m ++ '-' :: dayOfMonthChars t.date) := by
  unfold cloneOne mkPeriodChars
  simp

theorem cloneOne_startsWith (genId : Nat → String) (y m i : Nat)
    (t : Transaction) :
    strStartsWith (cloneOne genId y m i t).date (mkPeriodStr y m) = true := by
  rw [cloneOne_date]
  exact strStartsWith_self_append _ _

theorem matchesKey_self (t : Transaction) : matchesKey t t = true := by
  simp [matchesKey]

theorem cloneOne_matches (genId : Nat → String) (y m i : Nat)
    (t : Transaction) : matchesKey (cloneOne genId y m i t) t = true := by
  simp [matchesKey, cloneOne]

/-! ## Injectivity of the fixed-width renderings -/

theorem natChars_inj_iff (a b : Nat) (ha1 : 1000 ≤ a) (ha2 : a ≤ 9999)
    (hb1 : 1000 ≤ b) (hb2 : b ≤ 9999) :
    natChars a = natChars b ↔ a = b := by
  constructor
  · intro h
    rw [natChars_four a ha1 ha2, natChars_four b hb1 hb2] at h
    simp only [List.cons.injEq, and_true] at h
    obtain ⟨h1, h2, h3, h4⟩ := h
    have e1 := digitChar_inj _ _ (by omega) (by omega) h1
    have e2 := digitChar_inj _ _ (by omega) (by omega) h2
    have e3 := digitChar_inj _ _ (by omega) (by omega) h3
    have e4 := digitChar_inj _ _ (by omega) (by omega) h4
    omega
  · intro h; rw [h]

theorem padStart2_inj_iff (a b : Nat) (ha : a ≤ 99) (hb : b ≤ 99) :
    padStart2 a = padStart2 b ↔ a = b := by
  constructor
  · intro h
    rw [padStart2_eq a ha, padStart2_eq b hb] at h
    simp only [List.cons.injEq, and_true] at h
    obtain ⟨h1, h2⟩ := h
    have e1 := digitChar_inj _ _ (by omega) (by omega) h1
    have e2 := digitChar_inj _ _ (by omega) (by omega) h2
    omega
  · intro h; rw [h]

theorem prefix_append_of_length_eq (l1 l2 x : List Char)
    (h : l1.length = l2.length) : l1 <+: (l2 ++ x) ↔ l1 = l2 := by
  constructor
  · intro hp
    have hc := prefix_append_cancel l1 l2 [] x h
    rw [List.append_nil] at hc
    exact (hc.1 hp).1
  · rintro rfl
    exact List.prefix_append _ x

/-! ## Sample transactions for the concrete instantiations -/

/-- The fixed January rent of the spec scenario. -/
def rentJan : Transaction :=
  { id := "a1", title := "Rent", amount := 1000,
    type := TransactionType.expense, category := "Moradia",
    date := "2024-01-05", isPaid := true, isFixed := true }

/-- A fixed transaction on the 31st of January, for the no-clamping
instantiation. -/
def rentJan31 : Transaction :=
  { rentJan with date := "2024-01-31" }

theorem cloneOne_eq (genId : Nat → String) (y m i : Nat) (t : Transaction) :
    cloneOne genId y m i t
      = { t with
          id := genId i
          date := String.mk (mkPeriodChars y m ++ '-' :: dayOfMonthChars t.date)
          isPaid := false } := by
  unfold cloneOne mkPeriodChars
  simp

/-! ## The claims -/

/-- C1: reconciliation is idempotent. For every log, every canonical
target period `YYYY-MM` and every id supply, appending the materialized
clones of the pending candidates to the log makes the next computation of
`pendingFixedTransactions` for the same period empty: each previously
pending candidate now finds its clone in the target month under the
`(title, amount, type)` match, and a clone itself always matches itself.
(The claim's canonical-date hypothesis on the log is not needed: the
statement holds for arbitrary transaction dates.) -/
theorem claim_reconcile_idempotent (ts : List Transaction)
    (genId : Nat → String) (y m : Nat) (hy1 : 1000 ≤ y) (hy2 : y ≤ 9999)
    (hm1 : 1 ≤ m) (hm2 : m ≤ 12) :
    pendingFixedTransactions
      (handleImportFixed genId (pendingFixedTransactions ts (mkPeriodStr y m))
          (mkPeriodStr y m) ++ ts)
      (mkPeriodStr y m) = [] := by
  rw [handleImportFixed_eq genId _ y m hy1 hy2 (by omega)]
  have hmain : ∀ t ∈ prevMonthFixedOf
      (cloneAll genId y m 0 (pendingFixedTransactions ts (mkPeriodStr y m)) ++ ts)
      (mkPeriodStr y m),
      (currentMonthTxOf
        (cloneAll genId y m 0 (pendingFixedTransactions ts (mkPeriodStr y m)) ++ ts)
        (mkPeriodStr y m)).any (fun curr => matchesKey curr t) = true := by
    intro t ht
    have htbig : t ∈ cloneAll genId y m 0
        (pendingFixedTransactions ts (mkPeriodStr y m)) ++ ts :=
      List.mem_of_mem_filter ht
    have htpred := List.of_mem_filter ht
    rcases List.mem_append.1 htbig with hcl | hts
    · have hsw : strStartsWith t.date (mkPeriodStr y m) = true := by
        obtain ⟨j, u, hu, rfl⟩ := mem_cloneAll genId y m _ t 0 hcl
        exact cloneOne_startsWith genId y m j u
      exact List.any_eq_true.2
        ⟨t, List.mem_filter.2 ⟨htbig, hsw⟩, matchesKey_self t⟩
    · by_cases hpend : t ∈ pendingFixedTransactions ts (mkPeriodStr y m)
      · obtain ⟨j, hj⟩ := cloneAll_mem_of_mem genId y m _ t hpend 0
        exact List.any_eq_true.2
          ⟨cloneOne genId y m j t,
            List.mem_filter.2 ⟨List.mem_append.2 (Or.inl hj),
              cloneOne_startsWith genId y m j t⟩,
            cloneOne_matches genId y m j t⟩
      · have hprev : t ∈ prevMonthFixedOf ts (mkPeriodStr y m) :=
          List.mem_filter.2 ⟨hts, htpred⟩
        have hany : (currentMonthTxOf ts (mkPeriodStr y m)).any
            (fun curr => matchesKey curr t) = true := by
          cases hb : (currentMonthTxOf ts (mkPeriodStr y m)).any
              (fun curr => matchesKey curr t)
          · exact absurd
              (List.mem_filter.2 ⟨hprev, by rw [hb]; rfl⟩) hpend
          · rfl
        obtain ⟨c, hc, hck⟩ := List.any_eq_true.1 hany
        have hc' : c ∈ ts ∧ strStartsWith c.date (mkPeriodStr y m) = true := by
          unfold currentMonthTxOf at hc
          exact List.mem_filter.1 hc
        exact List.any_eq_true.2
          ⟨c, List.mem_filter.2
              ⟨List.mem_append.2 (Or.inr hc'.1), hc'.2⟩, hck⟩
  apply List.filter_eq_nil_iff.2
  intro t ht
  rw [hmain t ht]
  decide

/-- Witness for C1: the spec's Rent scenario, with the January fixed rent
rolled into February; after the import the pending set for 2024-02 is
empty. -/
theorem claim_reconcile_idempotent_witness :
    pendingFixedTransactions
      (handleImportFixed (fun i => String.mk ('n' :: natChars i))
          (pendingFixedTransactions [rentJan] (mkPeriodStr 2024 2))
          (mkPeriodStr 2024 2) ++ [rentJan])
      (mkPeriodStr 2024 2) = [] :=
  claim_reconcile_idempotent [rentJan] (fun i => String.mk ('n' :: natChars i))
    2024 2 (by norm_num) (by norm_num) (by norm_num) (by norm_num)

/-- C2: the computed summary satisfies the sum identities: totals are the
sums of `amount` by type regardless of `isPaid`, the received/paid figures
restrict to `isPaid = true`, `balance = incomeReceived - expensePaid`,
`forecastBalance = totalIncome - totalExpense`, and when every transaction
is paid the two balances coincide. -/
theorem claim_summary_identities (ts : List Transaction) :
    (stats ts).totalIncome = incomeTotalSpec ts
    ∧ (stats ts).totalExpense = expenseTotalSpec ts
    ∧ (stats ts).incomeReceived = incomeReceivedSpec ts
    ∧ (stats ts).expensePaid = expensePaidSpec ts
    ∧ (stats ts).balance = (stats ts).incomeReceived - (stats ts).expensePaid
    ∧ (stats ts).forecastBalance
        = (stats ts).totalIncome - (stats ts).totalExpense
    ∧ ((∀ t ∈ ts, t.isPaid = true) →
        (stats ts).balance = (stats ts).forecastBalance) := by
  rw [stats_eq]
  refine ⟨rfl, rfl, rfl, rfl, rfl, rfl, ?_⟩
  intro hall
  have h1 : incomeReceivedSpec ts = incomeTotalSpec ts := by
    unfold incomeReceivedSpec incomeTotalSpec
    congr 1
    apply List.filter_congr
    intro a ha
    rw [hall a ha, Bool.and_true]
  have h2 : expensePaidSpec ts = expenseTotalSpec ts := by
    unfold expensePaidSpec expenseTotalSpec
    congr 1
    apply List.filter_congr
    intro a ha
    rw [hall a ha, Bool.and_true]
  dsimp only
  rw [h1, h2]

/-- C3: percentage safety. The `|| 1` fallback makes the divisor never
zero; the percent figures equal the claimed formula with a zero total
treated as one; and for an empty list, or one with no transaction of the
relevant type, the computation returns exactly 0 (no meaningless value
can arise: the model is exact rational arithmetic and the divisor is
nonzero). -/
theorem claim_percent_zero_safe (ts : List Transaction) :
    jsOrDefault (stats ts).totalIncome 1 ≠ 0
    ∧ jsOrDefault (stats ts).totalExpense 1 ≠ 0
    ∧ percentReceived ts
        = (stats ts).incomeReceived
            / (if (stats ts).totalIncome = 0 then 1 else (stats ts).totalIncome)
            * 100
    ∧ percentPaid ts
        = (stats ts).expensePaid
            / (if (stats ts).totalExpense = 0 then 1 else (stats ts).totalExpense)
            * 100
    ∧ ((∀ t ∈ ts, t.type ≠ TransactionType.income) → percentReceived ts = 0)
    ∧ ((∀ t ∈ ts, t.type ≠ TransactionType.expense) → percentPaid ts = 0)
    ∧ (ts = [] → percentReceived ts = 0 ∧ percentPaid ts = 0) := by
  have hno1 : ∀ ts' : List Transaction,
      (∀ t ∈ ts', t.type ≠ TransactionType.income) →
      percentReceived ts' = 0 := by
    intro ts' hall
    unfold percentReceived
    rw [stats_eq]
    dsimp only
    have hz : incomeReceivedSpec ts' = 0 := by
      unfold incomeReceivedSpec
      rw [List.filter_eq_nil_iff.2 ?_]
      · simp [sumAmounts]
      · intro a ha
        simp [hall a ha]
    rw [hz, zero_div, zero_mul]
  have hno2 : ∀ ts' : List Transaction,
      (∀ t ∈ ts', t.type ≠ TransactionType.expense) →
      percentPaid ts' = 0 := by
    intro ts' hall
    unfold percentPaid
    rw [stats_eq]
    dsimp only
    have hz : expensePaidSpec ts' = 0 := by
      unfold expensePaidSpec
      rw [List.filter_eq_nil_iff.2 ?_]
      · simp [sumAmounts]
      · intro a ha
        simp [hall a ha]
    rw [hz, zero_div, zero_mul]
  refine ⟨?_, ?_, rfl, rfl, hno1 ts, hno2 ts, ?_⟩
  · unfold jsOrDefault
    by_cases h : (stats ts).totalIncome = 0
    · rw [if_pos h]; norm_num
    · rw [if_neg h]; exact h
  · unfold jsOrDefault
    by_cases h : (stats ts).totalExpense = 0
    · rw [if_pos h]; norm_num
    · rw [if_neg h]; exact h
  · rintro rfl
    exact ⟨hno1 [] (by simp), hno2 [] (by simp)⟩

/-- C4: materialization. For a canonical target period, the import
produces exactly one clone per pending candidate, in order; the clone
keeps `title`, `amount`, `type`, `category` and `isFixed` (everything but
the fields listed in the record update), takes the `i`-th generated id,
has its date rebuilt as the target year-month joined with the candidate's
original day-of-month string (no clamping: the day substring is copied
verbatim), and has `isPaid` reset to false. When the id supply avoids the
ids of a log, every clone's id is fresh for that log. -/
theorem claim_materialize_clone_fields (genId : Nat → String)
    (pending : List Transaction) (y m : Nat) (hy1 : 1000 ≤ y)
    (hy2 : y ≤ 9999) (hm1 : 1 ≤ m) (hm2 : m ≤ 12) :
    (handleImportFixed genId pending (mkPeriodStr y m)).length = pending.length
    ∧ (∀ (i : Nat) (t : Transaction), pending[i]? = some t →
        (handleImportFixed genId pending (mkPeriodStr y m))[i]?
          = some { t with
              id := genId i
              date := String.mk (mkPeriodChars y m ++ '-' :: dayOfMonthChars t.date)
              isPaid := false })
    ∧ (∀ L : List Transaction, (∀ j, ∀ u ∈ L, genId j ≠ u.id) →
        ∀ c ∈ handleImportFixed genId pending (mkPeriodStr y m),
          ∀ u ∈ L, c.id ≠ u.id) := by
  rw [handleImportFixed_eq genId pending y m hy1 hy2 (by omega)]
  refine ⟨cloneAll_length genId y m pending 0, ?_, ?_⟩
  · intro i t hti
    rw [cloneAll_getElem genId y m pending 0 i, hti]
    simp only [Option.map_some']
    rw [show 0 + i = i from by omega, cloneOne_eq]
  · intro L hfresh c hc u hu
    obtain ⟨j, t0, ht0, rfl⟩ := mem_cloneAll genId y m pending c 0 hc
    exact hfresh j u hu

/-- Witness for C4: a fixed transaction on 2024-01-31 materialized into
February 2024 yields the date string 2024-02-31 (no clamping), a fresh
id, and `isPaid` false. -/
theorem claim_materialize_clone_fields_witness :
    (handleImportFixed (fun _ => "fresh") [rentJan31] (mkPeriodStr 2024 2))[0]?
      = some { id := "fresh", title := "Rent", amount := 1000,
               type := TransactionType.expense, category := "Moradia",
               date := "2024-02-31", isPaid := false, isFixed := true } := by
  have h := (claim_materialize_clone_fields (fun _ => "fresh") [rentJan31]
      2024 2 (by norm_num) (by norm_num) (by norm_num) (by norm_num)).2.1
      0 rentJan31 rfl
  rw [h]
  simp only [Option.some.injEq]
  have : String.mk (mkPeriodChars 2024 2 ++ '-' :: dayOfMonthChars rentJan31.date)
      = "2024-02-31" := by decide
  rw [this]
  rfl

/-- C5: the pending test is exactly the absence of a `(title, amount,
type)` match among the target month's transactions (fixed or not);
`category`, the day of month and `isFixed` do not occur in the match key. -/
theorem claim_pending_match_key (ts : List Transaction) (P : String)
    (t : Transaction) (ht : t ∈ prevMonthFixedOf ts P) :
    t ∈ pendingFixedTransactions ts P
      ↔ ¬ ∃ c ∈ currentMonthTxOf ts P,
          c.title = t.title ∧ c.amount = t.amount ∧ c.type = t.type := by
  unfold pendingFixedTransactions
  rw [List.mem_filter]
  constructor
  · rintro ⟨-, hpred⟩ ⟨c, hc, h1, h2, h3⟩
    have hany : (currentMonthTxOf ts P).any (fun curr => matchesKey curr t)
        = true :=
      List.any_eq_true.2 ⟨c, hc, by simp [matchesKey, h1, h2, h3]⟩
    rw [hany] at hpred
    cases hpred
  · intro hno
    refine ⟨ht, ?_⟩
    cases hb : (currentMonthTxOf ts P).any fun curr => matchesKey curr t
    · rw [Bool.not_false]
    · obtain ⟨c, hc, hck⟩ := List.any_eq_true.1 hb
      simp only [matchesKey, Bool.and_eq_true, decide_eq_true_eq] at hck
      exact absurd ⟨c, hc, hck.1.1, hck.1.2, hck.2⟩ hno

/-- Witness for C5: the January fixed rent against an otherwise empty
February: with no match in the target month, it is pending. -/
theorem claim_pending_match_key_witness :
    rentJan ∈ pendingFixedTransactions [rentJan] "2024-02"
      ↔ ¬ ∃ c ∈ currentMonthTxOf [rentJan] "2024-02",
          c.title = rentJan.title ∧ c.amount = rentJan.amount
            ∧ c.type = rentJan.type :=
  claim_pending_match_key [rentJan] "2024-02" rentJan
    (List.mem_filter.2 ⟨List.mem_singleton_self rentJan, by decide⟩)

/-- C6: the alert list is exactly the unpaid expenses classified by due
date, in the log's iteration order, truncated to three entries: strictly
before today gives severity `danger` (the spec's `overdue`), otherwise at
most three days ahead gives `warning` (`dueSoon`), anything later, paid,
or of income type gives no alert. Dates are compared through `dayNumber`,
whose order-faithfulness to JS Date timestamps (one step per calendar
day, across month and year boundaries) is `dayNumber_nextDate`. The three
conjuncts after the equality instantiate the spec's P6 scenario with
today = 2024-03-10; the last two exercise the year boundary: on
2025-01-01 the previous New Year's Eve is already overdue, and seen from
2023-12-29 a bill due 2024-01-01 is exactly three days ahead, hence due
soon. -/
theorem claim_alert_severity :
    (∀ (ts : List Transaction) (todayNum : Nat),
        alerts ts todayNum = (ts.filterMap (claimAlert todayNum)).take 3)
    ∧ (∀ t : Transaction, t.type = TransactionType.expense →
        t.isPaid = false → t.date = "2024-03-09" →
        alertCheck (dayNumber 2024 3 10) t
          = some { id := t.id, severity := "danger" })
    ∧ (∀ t : Transaction, t.type = TransactionType.expense →
        t.isPaid = false → t.date = "2024-03-12" →
        alertCheck (dayNumber 2024 3 10) t
          = some { id := t.id, severity := "warning" })
    ∧ (∀ t : Transaction, t.type = TransactionType.expense →
        t.isPaid = false → t.date = "2024-03-20" →
        alertCheck (dayNumber 2024 3 10) t = none)
    ∧ (∀ t : Transaction, t.type = TransactionType.expense →
        t.isPaid = false → t.date = "2024-12-31" →
        alertCheck (dayNumber 2025 1 1) t
          = some { id := t.id, severity := "danger" })
    ∧ (∀ t : Transaction, t.type = TransactionType.expense →
        t.isPaid = false → t.date = "2024-01-01" →
        alertCheck (dayNumber 2023 12 29) t
          = some { id := t.id, severity := "warning" }) := by
  refine ⟨?_, ?_, ?_, ?_, ?_, ?_⟩
  · intro ts todayNum
    unfold alerts
    rw [alerts_foldl todayNum ts []]
    rw [List.nil_append]
    have hfun : alertCheck todayNum = claimAlert todayNum :=
      funext (alertCheck_eq_claimAlert todayNum)
    rw [hfun]
  · intro t hty hpaid hdate
    unfold alertCheck
    rw [if_pos ⟨hty, hpaid⟩, hdate]
    rw [show jsDateParse ("2024-03-09" ++ "T00:00:00") = some (2024, 3, 9)
      from by decide]
    dsimp only
    rw [if_pos (by decide)]
  · intro t hty hpaid hdate
    unfold alertCheck
    rw [if_pos ⟨hty, hpaid⟩, hdate]
    rw [show jsDateParse ("2024-03-12" ++ "T00:00:00") = some (2024, 3, 12)
      from by decide]
    dsimp only
    rw [if_neg (by decide), if_pos (by decide)]
  · intro t hty hpaid hdate
    unfold alertCheck
    rw [if_pos ⟨hty, hpaid⟩, hdate]
    rw [show jsDateParse ("2024-03-20" ++ "T00:00:00") = some (2024, 3, 20)
      from by decide]
    dsimp only
    rw [if_neg (by decide), if_neg (by decide)]
  · intro t hty hpaid hdate
    unfold alertCheck
    rw [if_pos ⟨hty, hpaid⟩, hdate]
    rw [show jsDateParse ("2024-12-31" ++ "T00:00:00") = some (2024, 12, 31)
      from by decide]
    dsimp only
    rw [if_pos (by decide)]
  · intro t hty hpaid hdate
    unfold alertCheck
    rw [if_pos ⟨hty, hpaid⟩, hdate]
    rw [show jsDateParse ("2024-01-01" ++ "T00:00:00") = some (2024, 1, 1)
      from by decide]
    dsimp only
    rw [if_neg (by decide), if_pos (by decide)]

/-- Witness for C6: the P6 instantiations and the two year-boundary
instantiations at a concrete unpaid expense. -/
theorem claim_alert_severity_witness :
    alertCheck (dayNumber 2024 3 10)
        { rentJan with date := "2024-03-09", isPaid := false }
      = some { id := rentJan.id, severity := "danger" }
    ∧ alertCheck (dayNumber 2024 3 10)
        { rentJan with date := "2024-03-12", isPaid := false }
      = some { id := rentJan.id, severity := "warning" }
    ∧ alertCheck (dayNumber 2024 3 10)
        { rentJan with date := "2024-03-20", isPaid := false } = none
    ∧ alertCheck (dayNumber 2025 1 1)
        { rentJan with date := "2024-12-31", isPaid := false }
      = some { id := rentJan.id, severity := "danger" }
    ∧ alertCheck (dayNumber 2023 12 29)
        { rentJan with date := "2024-01-01", isPaid := false }
      = some { id := rentJan.id, severity := "warning" } :=
  ⟨claim_alert_severity.2.1 _ rfl rfl rfl,
    claim_alert_severity.2.2.1 _ rfl rfl rfl,
    claim_alert_severity.2.2.2.1 _ rfl rfl rfl,
    claim_alert_severity.2.2.2.2.1 _ rfl rfl rfl,
    claim_alert_severity.2.2.2.2.2 _ rfl rfl rfl⟩

/-- C7: the annual rollup has twelve per-month rows in calendar order;
row `i` (0-based) holds the sums of `amount` over the paid transactions
of month `i + 1` of the year, separately for income and expense, and the
grand totals sum the paid transactions of the whole year. Unpaid
transactions contribute nothing: the `isPaid` conjunct is part of every
membership predicate on the right-hand sides. -/
theorem claim_annual_rollup (ts : List Transaction) (year : Nat) :
    (annualReportData ts year).monthly.length = 12
    ∧ (∀ i, i < 12 →
        ((annualReportData ts year).monthly.getD i ⟨0, 0⟩).income
          = monthIncomePaid ts year i
        ∧ ((annualReportData ts year).monthly.getD i ⟨0, 0⟩).expense
          = monthExpensePaid ts year i)
    ∧ (annualReportData ts year).totalYearIncome = yearIncomePaid ts year
    ∧ (annualReportData ts year).totalYearExpense = yearExpensePaid ts year := by
  obtain ⟨hl, hmo, hti, hte⟩ := annual_foldl year ts
    { monthly := List.replicate 12 ⟨0, 0⟩
      totalYearIncome := 0
      totalYearExpense := 0 } (by simp)
  refine ⟨hl, ?_, ?_, ?_⟩
  · intro i hi
    obtain ⟨moi, moe⟩ := hmo i hi
    have hrep : (List.replicate 12 (⟨0, 0⟩ : MonthEntry)).getD i ⟨0, 0⟩
        = ⟨0, 0⟩ := by
      rw [List.getD_eq_getElem?_getD, List.getElem?_replicate, if_pos hi]
      rfl
    constructor
    · unfold annualReportData
      rw [moi]
      dsimp only
      rw [hrep]
      dsimp only
      rw [zero_add]
    · unfold annualReportData
      rw [moe]
      dsimp only
      rw [hrep]
      dsimp only
      rw [zero_add]
  · unfold annualReportData
    rw [hti]
    dsimp only
    rw [zero_add]
  · unfold annualReportData
    rw [hte]
    dsimp only
    rw [zero_add]

/-- Witness for C7 (the nested bound `i < 12` discharged at a concrete
month): month 2 of an empty log has zero settled income. -/
theorem claim_annual_rollup_witness :
    ((annualReportData [] 2024).monthly.getD 2 ⟨0, 0⟩).income
      = monthIncomePaid [] 2024 2 :=
  ((claim_annual_rollup [] 2024).2.1 2 (by norm_num)).1

/-- C8: the previous-period computation decrements the month, wrapping a
January target to December of the previous year, and in particular maps
2024-01 to 2023-12 and 2024-07 to 2024-06. -/
theorem claim_previous_period :
    (∀ y m, 1000 ≤ y → y ≤ 9999 → 1 ≤ m → m ≤ 12 →
        prevPeriodOf (mkPeriodStr y m)
          = if m = 1 then mkPeriodStr (y - 1) 12 else mkPeriodStr y (m - 1))
    ∧ prevPeriodOf "2024-01" = "2023-12"
    ∧ prevPeriodOf "2024-07" = "2024-06" :=
  ⟨prevPeriodOf_mkPeriodStr, by decide, by decide⟩

/-- C9: loading never propagates an error. An absent key yields the empty
list, a parse failure (the model of a `JSON.parse` exception caught by the
`try`/`catch`) yields the empty list, and successfully parsed non-empty
data is returned as is. -/
theorem claim_load_never_fails (stored : Option String)
    (parseJson : String → Option (List Transaction)) :
    (stored = none → getTransactions stored parseJson = [])
    ∧ (∀ s, stored = some s → parseJson s = none →
        getTransactions stored parseJson = [])
    ∧ (∀ s ts, stored = some s → s ≠ "" → parseJson s = some ts →
        getTransactions stored parseJson = ts) := by
  refine ⟨?_, ?_, ?_⟩
  · rintro rfl; rfl
  · rintro s rfl hp
    unfold getTransactions
    dsimp only
    by_cases hs : s = ""
    · rw [if_pos hs]
    · rw [if_neg hs, hp]
  · rintro s ts rfl hs hp
    unfold getTransactions
    dsimp only
    rw [if_neg hs, hp]

/-- Witness for C9: corrupt stored data yields the empty log. -/
theorem claim_load_never_fails_witness :
    getTransactions (some "corrupt") (fun _ => none) = [] :=
  (claim_load_never_fails (some "corrupt") (fun _ => none)).2.1
    "corrupt" rfl rfl

/-- C10: on canonical valid dates the Dashboard's Date-parsing month test
agrees with the list's `startsWith` prefix test: for a transaction dated
by the canonical rendering of a valid calendar date, the parse-based
filter for 0-based month `m0 - 1` of year `y0` selects it exactly when
the date string starts with the `YYYY-MM` rendering of `(y0, m0)`.
Without the canonical-valid-date precondition the two tests disagree:
the materialized date 2024-02-31 is rejected by the Date parse (an
Invalid Date) but accepted by the February prefix test. -/
theorem claim_month_filters_agree :
    (∀ (t : Transaction) (y m d y0 m0 : Nat),
        t.date = canonicalDateStr y m d → isValidDate y m d →
        1000 ≤ y → y ≤ 9999 → 1000 ≤ y0 → y0 ≤ 9999 → 1 ≤ m0 → m0 ≤ 12 →
        monthlyFilterPred (m0 - 1) y0 t
          = strStartsWith t.date (mkPeriodStr y0 m0))
    ∧ (∀ t : Transaction, t.date = "2024-02-31" →
        monthlyFilterPred 1 2024 t = false
        ∧ strStartsWith t.date (mkPeriodStr 2024 2) = true) := by
  constructor
  · intro t y m d y0 m0 hdate hv hy1 hy2 hz1 hz2 hm01 hm02
    obtain ⟨hm1, hm2, hd1, hd2⟩ := hv
    have hparse : jsDateParse (t.date ++ "T00:00:00") = some (y, m, d) := by
      rw [hdate]
      exact jsDateParse_canonical y m d hy1 hy2 ⟨hm1, hm2, hd1, hd2⟩
    have hiff : strStartsWith t.date (mkPeriodStr y0 m0) = true
        ↔ (y0 = y ∧ m0 = m) := by
      rw [hdate]
      unfold strStartsWith
      rw [List.isPrefixOf_iff_prefix]
      rw [show (canonicalDateStr y m d).data
        = natChars y ++ '-' :: (padStart2 m ++ '-' :: padStart2 d) from rfl]
      rw [show (mkPeriodStr y0 m0).data
        = natChars y0 ++ '-' :: padStart2 m0 from rfl]
      rw [prefix_append_cancel (natChars y0) (natChars y) _ _
        (by rw [natChars_four y0 hz1 hz2, natChars_four y hy1 hy2]; rfl)]
      rw [List.cons_prefix_cons]
      rw [prefix_append_of_length_eq (padStart2 m0) (padStart2 m)
        ('-' :: padStart2 d)
        (by rw [padStart2_eq m0 (by omega), padStart2_eq m (by omega)]; rfl)]
      rw [natChars_inj_iff y0 y hz1 hz2 hy1 hy2,
        padStart2_inj_iff m0 m (by omega) (by omega)]
      simp
    unfold monthlyFilterPred
    rw [hparse]
    dsimp only
    have hgoal : (decide (m - 1 = m0 - 1 ∧ y = y0) : Bool)
        = strStartsWith t.date (mkPeriodStr y0 m0) := by
      by_cases hc : y0 = y ∧ m0 = m
      · rw [hiff.2 hc, decide_eq_true (by omega)]
      · rw [decide_eq_false (by omega)]
        cases hb : strStartsWith t.date (mkPeriodStr y0 m0)
        · rfl
        · exact absurd (hiff.1 hb) hc
    exact hgoal
  · intro t hdate
    constructor
    · unfold monthlyFilterPred
      rw [hdate]
      rw [show jsDateParse ("2024-02-31" ++ "T00:00:00") = none from by decide]
    · rw [hdate]
      decide

/-- Witness for C10: the agreement at the concrete date 2024-03-05 and
month 2024-03, both filters selecting the transaction. -/
theorem claim_month_filters_agree_witness :
    monthlyFilterPred 2 2024 { rentJan with date := "2024-03-05" }
      = strStartsWith "2024-03-05" (mkPeriodStr 2024 3) :=
  claim_month_filters_agree.1 { rentJan with date := "2024-03-05" }
    2024 3 5 2024 3 (by decide) (by decide) (by norm_num) (by norm_num)
    (by norm_num) (by norm_num) (by norm_num) (by norm_num)
